import Mathlib

/-!
Verification of the box64 execution-engine specification against the
box64_test_cases repository.  The definitions below are shallow embeddings of
the code quoted in the repository's walkthrough documents (the `x64emu_fork`
fork protocol, the `my_fork` wrapper, the `EmuRun` dispatcher check, the
arm64 prolog/epilog, the interpreter's `0F 00` case, the dynarec pass
machinery, the cancellation-cleanup stack of `emuthread_t`, the unlocked
at-fork registration, and the `in_used` life cycle of dynarec blocks in a
forked child).
-/

namespace Box64

/-! ## At-fork callback iteration (`x64emu_fork`, src/emu/x64int3.c)

The prepare loop is `for (int i = my_context->atfork_sz - 1; i >= 0; --i)`:
it visits indices `sz-1, sz-2, ..., 0`, i.e. reverse registration order.

The parent and child loops are written `for (int i = 0; i < atfork_sz; --i)`:
the index starts at 0 and is decremented, so whenever `atfork_sz > 0` the
loop visits `0, -1, -2, ...` and never terminates on its own; every index
after the first is an out-of-bounds access into `my_context->atforks`.
Because the C loop does not terminate, the embedding takes a fuel argument
and returns the first `fuel` visited indices. -/

/-- Indices visited by the prepare-handler loop of `x64emu_fork`
(`for (int i = atfork_sz - 1; i >= 0; --i)`): `sz-1, ..., 1, 0`. -/
def prepareIndices : Nat → List Int
  | 0 => []
  | n + 1 => (n : Int) :: prepareIndices n

/-- One unrolling budget of the parent/child-handler loop of `x64emu_fork`
(`for (int i = 0; i < atfork_sz; --i)`): test `i < sz`, visit `i`, then
decrement `i`.  `fuel` bounds the number of iterations we unroll. -/
def parentChildLoop (sz : Int) : Nat → Int → List Int
  | 0, _ => []
  | fuel + 1, i => if i < sz then i :: parentChildLoop sz fuel (i - 1) else []

/-- Indices visited by the parent-handler (and child-handler) loop of
`x64emu_fork`, starting from `i = 0`. -/
def parentCallIndices (sz : Int) (fuel : Nat) : List Int :=
  parentChildLoop sz fuel 0

/-! ## Interpreter case `0F 00` (src/emu/x64run0f.c, quoted in test 002)

In the C source the `else` branch of `if (rex.is32bits)` covers only the
fetch `nextop = F8;`; the switch that follows it is not inside the `else`
and therefore always executes.  The first switch (32-bit branch) handles
reg = 0 (SLDT), 1 (STR), 4 (VERR), 5 (VERW); the second switch handles only
reg = 0 and hits `default: return 0;` (unhandled opcode) otherwise. -/

inductive Op0fOutcome where
  | handled
  | unhandledOp
deriving DecidableEq

structure Case00Result where
  /-- The 32-bit-mode switch ran and performed the instruction's effect. -/
  executedFirstSwitch : Bool
  /-- What the function finally returns: instruction handled, or `return 0`
  (unhandled opcode, surfaced to the guest as an illegal instruction). -/
  outcome : Op0fOutcome
deriving DecidableEq

/-- Control flow of `case 0x00` in `Run0F`, with the missing-braces layout of
the source: the 32-bit branch runs its own switch, and then the second
switch runs unconditionally; in 64-bit mode only the second switch runs. -/
def x64run0f_case00 (is32bits : Bool) (reg : Nat) : Case00Result :=
  { executedFirstSwitch :=
      is32bits && (reg == 0 || reg == 1 || reg == 4 || reg == 5),
    outcome := if reg = 0 then .handled else .unhandledOp }

/-! ## Unlocked at-fork registration (`my___register_atfork`, test 004)

Registration appends into `my_context->atforks[atfork_sz]` and then bumps
`atfork_sz`, with no lock.  A registering thread therefore performs three
separately interleavable shared-memory actions: read `atfork_sz` into a
local, write the record into the slot at the value read, increment
`atfork_sz`. -/

structure RegShared where
  /-- The shared `atfork_sz` counter. -/
  atfork_sz : Nat
  /-- The `atforks` slots: slot index to the id of the thread whose record was
  stored there (`none` when the slot was never written). -/
  slots : Nat → Option Nat
  /-- Per-thread local copy of `atfork_sz` taken before the slot write. -/
  localIdx : Nat → Nat

inductive RegAction where
  | readSz (t : Nat)
  | writeSlot (t : Nat)
  | incSz (t : Nat)

/-- Effect of one primitive action of the unlocked registration code. -/
def regStep (s : RegShared) : RegAction → RegShared
  | .readSz t =>
      { s with localIdx := fun u => if u = t then s.atfork_sz else s.localIdx u }
  | .writeSlot t =>
      { s with slots := fun j => if j = s.localIdx t then some t else s.slots j }
  | .incSz _ =>
      { s with atfork_sz := s.atfork_sz + 1 }

/-- Run an interleaving of registration actions. -/
def regRun (s : RegShared) (acts : List RegAction) : RegShared :=
  acts.foldl regStep s

/-- Initial shared state: no records registered. -/
def regInit : RegShared :=
  { atfork_sz := 0, slots := fun _ => none, localIdx := fun _ => 0 }

/-- The serial schedule: thread 0 registers completely, then thread 1. -/
def serialSchedule : List RegAction :=
  [.readSz 0, .writeSlot 0, .incSz 0, .readSz 1, .writeSlot 1, .incSz 1]

/-- A racy interleaving: both threads read `atfork_sz = 0` before either
writes its slot. -/
def raceSchedule : List RegAction :=
  [.readSz 0, .readSz 1, .writeSlot 0, .writeSlot 1, .incSz 0, .incSz 1]

/-- Number of slots below `atfork_sz` that actually hold a record; at fork
time the callback loops walk exactly the first `atfork_sz` slots. -/
def storedCount (s : RegShared) : Nat :=
  (List.range s.atfork_sz).countP (fun i => (s.slots i).isSome)

/-! ## Guest CPU state and the fork protocol result (`x64emu_fork` phase 4)

`x64emu_t` holds the sixteen 64-bit general-purpose registers (index 0 is
RAX), the flags word and the instruction pointer.  After the host `fork()`,
phase 4 of `x64emu_fork` executes `R_EAX = v;`: a write to the low 32-bit
view of register RAX, leaving the upper half and every other field alone.
`v` is 0 in the child and the child's PID in the parent; the RIP saved by
the epilog is untouched, so both sides resume the dispatcher at the same
guest IP. -/

structure GuestCpu where
  /-- Field `emu->regs[0..15]`, RAX at index 0. -/
  regs : Fin 16 → Nat
  /-- Field `emu->eflags`. -/
  eflags : Nat
  /-- Field `emu->ip` (guest RIP). -/
  ip : Nat

/-- Write `R_EAX = v`: store `v` into the low 32-bit dword of RAX (a union-member
write; the high dword of RAX is untouched). -/
def setEAX (g : GuestCpu) (v : Nat) : GuestCpu :=
  { g with regs := fun i =>
      if i = 0 then g.regs 0 - g.regs 0 % 2 ^ 32 + v % 2 ^ 32 else g.regs i }

/-- Low 32-bit view of RAX, the guest fork return value. -/
def eaxOf (g : GuestCpu) : Nat :=
  g.regs 0 % 2 ^ 32

/-- Guest state of the parent immediately after the fork protocol:
`R_EAX = v` with `v` the new child's PID. -/
def forkResultParent (pre : GuestCpu) (pid : Nat) : GuestCpu :=
  setEAX pre pid

/-- Guest state of the child immediately after the fork protocol:
`R_EAX = v` with `v = 0`. -/
def forkResultChild (pre : GuestCpu) : GuestCpu :=
  setEAX pre 0

/-! ## The deferred-fork wrapper and the dispatcher iteration (`my_fork`,
`EmuRun`)

`my_fork` (src/wrapped/wrappedlibc.c) only sets `emu->quit = 1` and
`emu->fork = 1` and returns 0; it performs no host fork.  The host fork
happens on the next `EmuRun` iteration, after the arm64 epilog has spilled
the guest registers back to `x64emu_t`, when the loop inspects `emu->fork`. -/

structure EmuCtl where
  /-- Field `emu->quit`. -/
  quit : Bool
  /-- Field `emu->fork` (0 = none, 1 = plain fork, 2 = fork-with-pty, 3 = vfork). -/
  fork : Nat
  /-- Abstraction of every other `x64emu_t` field; `my_fork` leaves it alone. -/
  rest : Nat

/-- The guest `fork()` wrapper: set `quit = 1`, `fork = 1`, return 0. -/
def my_fork (e : EmuCtl) : EmuCtl × Nat :=
  ({ e with quit := true, fork := 1 }, 0)

inductive DispEvent where
  | prologEv
  | wrapperCallEv
  | epilogSpillEv
  | hostForkEv
deriving DecidableEq

/-- Event trace of the dispatcher iteration in which a translated block
calls the `fork()` wrapper: prolog, the wrapper call inside the block (which
only sets flags), the epilog spill, and then — only because `emu->fork` is
now nonzero — the host fork performed by the fork protocol. -/
def dispatcherForkIterTrace (e : EmuCtl) : List DispEvent :=
  [.prologEv, .wrapperCallEv, .epilogSpillEv] ++
    (if (my_fork e).1.fork ≠ 0 then [.hostForkEv] else [])

/-! ## Fork kinds and the host primitive chosen (`x64emu_fork` phase 2/3)

Phase 2 is `if (forktype == 2) v = forkpty(...); else v = fork();` — the
real `vfork()` call is commented out, so forktype 3 uses an ordinary fork.
Phase 3 in the parent runs the parent-handler loop and then, for
forktype 3, `waitpid(v, NULL, WEXITED)`. -/

inductive ForkEvent where
  | prepareCall (i : Int)
  | parentCall (i : Int)
  | hostForkCall
  | hostForkPtyCall
  | hostVforkCall
  | waitpidCall
  | setReturnValue
deriving DecidableEq

/-- The host primitive called in phase 2 of `x64emu_fork`. -/
def forkPrimitive (forktype : Nat) : ForkEvent :=
  if forktype = 2 then .hostForkPtyCall else .hostForkCall

/-- Parent-side event trace of `x64emu_fork`: prepare handlers (reverse
registration order), the host primitive, the (buggy, fuel-bounded)
parent-handler loop, the `waitpid` for forktype 3, then `R_EAX = v`. -/
def x64emu_fork_parentTrace (sz fuel forktype : Nat) : List ForkEvent :=
  (prepareIndices sz).map .prepareCall ++
    [forkPrimitive forktype] ++
    (parentCallIndices (sz : Int) fuel).map .parentCall ++
    (if forktype = 3 then [.waitpidCall] else []) ++
    [.setReturnValue]

/-! ## The arm64 epilog (src/dynarec/arm64/arm64_epilog.S)

Guest state lives in host registers x10..x27 (RAX..R15, flags, RIP).  The
epilog first stores x10..x27 into `x64emu_t`, then restores the host
callee-saved registers x19..x28 (and d8-d15, x29, x30) from the stack slots
the prolog filled.  x19..x27 are the guest registers R9..R15, the flags and
the RIP, so after one epilog those host registers no longer hold guest
values: they hold whatever the prolog saved. -/

structure EpilogMachine where
  /-- Host registers x10+i for i = 0..17: guest RAX..R15, flags, RIP. -/
  hx : Fin 18 → Nat
  /-- Stack slots the prolog saved for x19..x27 (host callee-saved values). -/
  savedCallee : Fin 9 → Nat
  /-- The `x64emu_t` guest state in memory. -/
  cpu : GuestCpu

/-- The store half of the epilog: spill x10..x27 into `x64emu_t`. -/
def epilogSpill (hx : Fin 18 → Nat) (_g : GuestCpu) : GuestCpu :=
  { regs := fun i => hx (Fin.castLE (by omega) i),
    eflags := hx 16,
    ip := hx 17 }

/-- The restore half of the epilog: reload x19..x27 (hx indices 9..17) from
the prolog's stack slots; x10..x18 are untouched. -/
def epilogRestore (m : EpilogMachine) : Fin 18 → Nat :=
  fun i => if h : 9 ≤ i.val then m.savedCallee ⟨i.val - 9, by omega⟩ else m.hx i

/-- One run of `arm64_epilog`: store x10..x27 to `x64emu_t`, then restore
the callee-saved registers. -/
def arm64_epilog (m : EpilogMachine) : EpilogMachine :=
  { hx := epilogRestore m,
    savedCallee := m.savedCallee,
    cpu := epilogSpill m.hx m.cpu }

/-! ## Cancellation-cleanup stack (`emuthread_t.cancels`, src/libtools/threads.c)

`my___pthread_register_cancel` appends the unwind buffer at index
`cancel_size` and increments the count, so the array lists records in
registration order.  `my___pthread_unregister_cancel` removes the most
recent record (the one at index `cancel_size - 1`).  `emuthread_cancel`
walks `for (int i = cancel_size - 1; i >= 0; --i)`, i.e. from the last
registered record down to the first. -/

/-- Push `et->cancels[et->cancel_size++] = buff`: append at the end. -/
def registerCancel (cancels : List α) (buff : α) : List α :=
  cancels ++ [buff]

/-- Register a whole sequence of cleanup records, in order. -/
def registerAllCancels (cancels : List α) (buffs : List α) : List α :=
  buffs.foldl registerCancel cancels

/-- The index sequence `n-1, n-2, ..., 0` of the cancellation walk. -/
def walkIdxList : Nat → List Nat
  | 0 => []
  | n + 1 => n :: walkIdxList n

/-- Records visited by `emuthread_cancel`: `cancels[i]` for
`i = cancel_size - 1` down to `0`. -/
def emuthread_cancel_order (cancels : List α) : List α :=
  (walkIdxList cancels.length).filterMap (fun i => cancels[i]?)

/-- One `pthread_cleanup_pop`: return `cancels[--cancel_size]` and shrink
the array. -/
def popCancel (cancels : List α) : Option α × List α :=
  (cancels.getLast?, cancels.dropLast)

/-- Pop until the stack is empty, collecting the values in pop order
(fuel-driven; `fuel = cancels.length` empties the stack). -/
def popCancelsAux : Nat → List α → List α
  | 0, _ => []
  | fuel + 1, xs =>
      match xs.getLast? with
      | none => []
      | some a => a :: popCancelsAux fuel xs.dropLast

/-- Values returned by popping the whole cleanup stack. -/
def popAllCancels (xs : List α) : List α :=
  popCancelsAux xs.length xs

/-! ## Sizing pass vs emission pass (FillBlock64, dynarec_arm64_pass2/3.h)

The same decoder source runs in every pass; only the `EMIT` macro changes.
In pass 2 `EMIT(A)` adds 4 to the running size; in pass 3 `EMIT(A)` writes
one 32-bit host instruction word and advances the cursor by 4.  An
instruction's expansion is therefore a fixed tree of `EMIT` calls (with
branches decided by pass-1 data, identical in both passes), which the two
passes interpret differently. -/

inductive EmitProg where
  /-- Emit nothing. -/
  | skip
  /-- One `EMIT(w)`: a single 4-byte arm64 instruction word. -/
  | emit (w : Nat)
  /-- Two expansions in sequence. -/
  | seq (p q : EmitProg)
  /-- A branch on pass-1 data (the same in pass 2 and pass 3). -/
  | ite (c : Bool) (p q : EmitProg)

/-- Pass 2 semantics of an expansion: `EMIT` counts `native_size += 4`. -/
def pass2Size : EmitProg → Nat
  | .skip => 0
  | .emit _ => 4
  | .seq p q => pass2Size p + pass2Size q
  | .ite c p q => if c then pass2Size p else pass2Size q

/-- Pass 3 semantics of an expansion: `EMIT` appends the 4-byte word. -/
def pass3Words : EmitProg → List Nat
  | .skip => []
  | .emit w => [w]
  | .seq p q => pass3Words p ++ pass3Words q
  | .ite c p q => if c then pass3Words p else pass3Words q

/-- Pass 2 total for a block: sum of the per-instruction sizes. -/
def blockPass2Size (insts : List EmitProg) : Nat :=
  (insts.map pass2Size).sum

/-- Pass 3 output for a block: the concatenated host words. -/
def blockPass3Words (insts : List EmitProg) : List Nat :=
  (insts.map pass3Words).flatten

/-! ## `in_used` in a forked child (test 001, custommem.c)

A thread entering a dynarec block increments its `in_used`; leaving
decrements it.  `PurgeDynarecMap` (custommem.c:1630) frees a block only
when `in_used == 0`.  The child-side at-fork handler
`atfork_child_custommem` (custommem.c:2929) reinitialises mutexes only: it
does not reset `in_used`.  After a fork taken while other parent threads
were inside the block, the child starts with `in_used = stale > 0` and no
thread inside, and only the child's own balanced enter/exit pairs ever
touch the counter. -/

structure BlockChildState where
  /-- The block's inherited `in_used` counter in the child. -/
  inUse : Nat
  /-- Child threads currently executing inside the block. -/
  threadsInside : Nat
  /-- The purge scan reclaimed the block's executable memory. -/
  freed : Bool

/-- Child state right after the fork: `stale` counts the parent threads that
were inside the block at fork time and do not exist in the child. -/
def childInit (stale : Nat) : BlockChildState :=
  { inUse := stale, threadsInside := 0, freed := false }

/-- Child-side events that can touch the block after the fork. -/
inductive ChildStep : BlockChildState → BlockChildState → Prop
  /-- Handler `atfork_child_custommem`: reinitialise the allocator mutexes; the
  `in_used` counters are not reset. -/
  | atforkChildReinit (s : BlockChildState) : ChildStep s s
  /-- A child thread enters the block: `in_used++`. -/
  | enter (s : BlockChildState) :
      ChildStep s { inUse := s.inUse + 1, threadsInside := s.threadsInside + 1,
                    freed := s.freed }
  /-- A child thread that is inside the block leaves it: `in_used--`. -/
  | exitBlock (s : BlockChildState) (h : 0 < s.threadsInside) :
      ChildStep s { inUse := s.inUse - 1, threadsInside := s.threadsInside - 1,
                    freed := s.freed }
  /-- Purge `PurgeDynarecMap` reclaims the block, allowed only at `in_used == 0`. -/
  | purge (s : BlockChildState) (h : s.inUse = 0) :
      ChildStep s { s with freed := true }

/-- States the child process can reach from `init` by any sequence of
child-side events. -/
inductive ChildReach (init : BlockChildState) : BlockChildState → Prop
  | refl : ChildReach init init
  | step {s t : BlockChildState} (hs : ChildReach init s) (ht : ChildStep s t) :
      ChildReach init t

/-! ## Helper lemmas -/

theorem registerAllCancels_append (cs bs : List α) :
    registerAllCancels cs bs = cs ++ bs := by
  induction bs generalizing cs with
  | nil => simp [registerAllCancels]
  | cons b bs ih =>
      have h1 : registerAllCancels cs (b :: bs) = registerAllCancels (cs ++ [b]) bs := rfl
      rw [h1, ih]
      simp

theorem walkIdxList_filterMap_take (xs : List α) :
    ∀ n, n ≤ xs.length →
      (walkIdxList n).filterMap (fun i => xs[i]?) = (xs.take n).reverse := by
  intro n
  induction n with
  | zero => simp [walkIdxList]
  | succ n ih =>
      intro h
      have hn : n < xs.length := by omega
      have hg : xs[n]? = some xs[n] := List.getElem?_eq_getElem hn
      simp only [walkIdxList, List.filterMap_cons, hg]
      rw [ih (by omega)]
      have hts : xs.take (n + 1) = xs.take n ++ [xs[n]] := by
        rw [List.take_succ, hg]
        rfl
      rw [hts, List.reverse_append]
      simp

theorem emuthread_cancel_order_reverse (xs : List α) :
    emuthread_cancel_order xs = xs.reverse := by
  have h := walkIdxList_filterMap_take xs xs.length (le_refl _)
  simpa [emuthread_cancel_order] using h

theorem popCancelsAux_reverse :
    ∀ (n : Nat) (xs : List α), xs.length ≤ n → popCancelsAux n xs = xs.reverse := by
  intro n
  induction n with
  | zero =>
      intro xs h
      have hx : xs = [] := List.length_eq_zero.mp (by omega)
      simp [hx, popCancelsAux]
  | succ n ih =>
      intro xs h
      rcases List.eq_nil_or_concat xs with rfl | ⟨ys, a, rfl⟩
      · simp [popCancelsAux]
      · simp only [List.concat_eq_append] at h ⊢
        have hlen : ys.length ≤ n := by
          simp [List.length_append] at h
          omega
        simp only [popCancelsAux, List.getLast?_concat, List.dropLast_concat]
        rw [ih ys hlen]
        simp

theorem pass2Size_eq_pass3_length (p : EmitProg) :
    pass2Size p = 4 * (pass3Words p).length := by
  induction p with
  | skip => simp [pass2Size, pass3Words]
  | emit w => simp [pass2Size, pass3Words]
  | seq p q ihp ihq =>
      simp [pass2Size, pass3Words, ihp, ihq]
      ring
  | ite c p q ihp ihq =>
      cases c <;> simp [pass2Size, pass3Words, ihp, ihq]

/-! ## Claim theorems -/

/-- C1: the prepare loop of `x64emu_fork` visits index 0 (reverse
registration order for one record), but the parent/child-handler loop,
written `for (int i = 0; i < atfork_sz; --i)`, visits `0, -1, -2, ...` when
one record is registered: it dereferences out-of-bounds negative indices
and never invokes the records once each in registration order. -/
theorem atfork_parent_loop_runs_backwards :
    prepareIndices 1 = [0] ∧
    parentCallIndices 1 3 = [0, -1, -2] ∧
    parentCallIndices 1 3 ≠ [0] ∧
    (parentCallIndices 1 5).length = 5 := by
  decide

/-- C2: in 64-bit mode the interpreter's `0F 00` case returns 0 (unhandled
opcode) for STR (/1), VERR (/4) and VERW (/5) instead of producing the
architectural result; only SLDT (/0) is handled, and the 32-bit-mode first
switch never runs in 64-bit mode. -/
theorem str_verr_verw_unhandled_in_64bit :
    (x64run0f_case00 false 1).outcome = Op0fOutcome.unhandledOp ∧
    (x64run0f_case00 false 4).outcome = Op0fOutcome.unhandledOp ∧
    (x64run0f_case00 false 5).outcome = Op0fOutcome.unhandledOp ∧
    (x64run0f_case00 false 1).executedFirstSwitch = false ∧
    (x64run0f_case00 false 0).outcome = Op0fOutcome.handled := by
  decide

/-- C3: immediately after the fork protocol, the child's GuestCpu equals the
parent's state at the fork instant on every register other than RAX, on the
flags and on the IP; the fork return value (low 32 bits of RAX) is 0 in the
child and the child's PID in the parent, and both sides resume at the same
guest IP. -/
theorem fork_return_value_and_state (pre : GuestCpu) (pid : Nat)
    (hpid : pid < 4294967296) :
    (∀ i : Fin 16, i ≠ 0 → (forkResultChild pre).regs i = pre.regs i) ∧
    (forkResultChild pre).eflags = pre.eflags ∧
    (forkResultChild pre).ip = pre.ip ∧
    (∀ i : Fin 16, i ≠ 0 → (forkResultParent pre pid).regs i = pre.regs i) ∧
    (forkResultParent pre pid).eflags = pre.eflags ∧
    (forkResultParent pre pid).ip = pre.ip ∧
    eaxOf (forkResultChild pre) = 0 ∧
    eaxOf (forkResultParent pre pid) = pid ∧
    (forkResultChild pre).ip = (forkResultParent pre pid).ip := by
  refine ⟨?_, rfl, rfl, ?_, rfl, rfl, ?_, ?_, rfl⟩
  · intro i hi
    simp [forkResultChild, setEAX, hi]
  · intro i hi
    simp [forkResultParent, setEAX, hi]
  · simp [forkResultChild, setEAX, eaxOf]
    omega
  · simp [forkResultParent, setEAX, eaxOf]
    omega

/-- A concrete pre-fork guest state used by the witnesses. -/
def cpu0 : GuestCpu :=
  { regs := fun _ => 0, eflags := 0, ip := 0 }

/-- Witness for C3 at `pre = cpu0`, `pid = 1234`. -/
theorem fork_return_value_and_state_witness :
    1234 < 4294967296 ∧
    eaxOf (forkResultChild cpu0) = 0 ∧
    eaxOf (forkResultParent cpu0 1234) = 1234 ∧
    (forkResultChild cpu0).ip = (forkResultParent cpu0 1234).ip :=
  ⟨by norm_num,
   (fork_return_value_and_state cpu0 1234 (by norm_num)).2.2.2.2.2.2.1,
   (fork_return_value_and_state cpu0 1234 (by norm_num)).2.2.2.2.2.2.2.1,
   (fork_return_value_and_state cpu0 1234 (by norm_num)).2.2.2.2.2.2.2.2⟩

/-- C4: the guest fork wrapper only sets `quit = 1` and the fork-request
kind and returns 0, leaving the rest of the emulator state alone; in the
dispatcher iteration's event trace, the host fork happens strictly after
the epilog has spilled the guest registers back to `x64emu_t`. -/
theorem fork_deferred_until_after_epilog (e : EmuCtl) (n : Nat)
    (h : (dispatcherForkIterTrace e)[n]? = some DispEvent.hostForkEv) :
    ((my_fork e).1.quit = true ∧ (my_fork e).1.fork = 1 ∧
      (my_fork e).1.rest = e.rest ∧ (my_fork e).2 = 0) ∧
    ∃ m, m < n ∧ (dispatcherForkIterTrace e)[m]? = some DispEvent.epilogSpillEv := by
  refine ⟨⟨rfl, rfl, rfl, rfl⟩, ?_⟩
  have ht : dispatcherForkIterTrace e =
      [.prologEv, .wrapperCallEv, .epilogSpillEv, .hostForkEv] := by
    simp [dispatcherForkIterTrace, my_fork]
  rw [ht] at h
  match n, h with
  | 3, _ => exact ⟨2, by omega, by rw [ht]; rfl⟩

/-- A concrete emulator control state used by the witnesses. -/
def emu0 : EmuCtl :=
  { quit := false, fork := 0, rest := 42 }

/-- Witness for C4 at `e = emu0`, `n = 3`. -/
theorem fork_deferred_until_after_epilog_witness :
    (dispatcherForkIterTrace emu0)[3]? = some DispEvent.hostForkEv ∧
    ∃ m, m < 3 ∧ (dispatcherForkIterTrace emu0)[m]? = some DispEvent.epilogSpillEv :=
  ⟨by decide, (fork_deferred_until_after_epilog emu0 3 (by decide)).2⟩

/-- C5: with the unlocked registration code, the serial schedule registers
both of two records correctly, but the racy interleaving (both threads read
`atfork_sz = 0` before either writes) ends with `atfork_sz = 2` while only
one record is actually stored: slot 1 was never written, so one handler is
lost and the fork-time walk of the first `atfork_sz` slots cannot invoke
N×M = 2 handlers. -/
theorem atfork_registration_race_loses_record :
    (regRun regInit serialSchedule).atfork_sz = 2 ∧
    storedCount (regRun regInit serialSchedule) = 2 ∧
    (regRun regInit raceSchedule).atfork_sz = 2 ∧
    storedCount (regRun regInit raceSchedule) = 1 ∧
    (regRun regInit raceSchedule).slots 1 = none := by
  decide

/-- C6: the cleanup-record stack is a LIFO: after registering any sequence
of records, popping them all returns them in reverse registration order,
and the cancellation walk of `emuthread_cancel` visits the records in
exactly the reverse of their registration order. -/
theorem cleanup_stack_lifo (α : Type) (bs : List α) :
    emuthread_cancel_order (registerAllCancels [] bs) = bs.reverse ∧
    popAllCancels (registerAllCancels [] bs) = bs.reverse := by
  have hreg : registerAllCancels ([] : List α) bs = bs := by
    simpa using registerAllCancels_append [] bs
  constructor
  · rw [hreg, emuthread_cancel_order_reverse]
  · rw [hreg]
    exact popCancelsAux_reverse bs.length bs (le_refl _)

/-- C7: for every instruction expansion, the host-byte size computed by the
sizing pass (pass 2) equals the number of bytes the emission pass (pass 3)
writes (4 bytes per emitted word), and hence the pass-2 total for a block
equals the total emitted size. -/
theorem pass2_size_matches_pass3_emission :
    (∀ p : EmitProg, pass2Size p = 4 * (pass3Words p).length) ∧
    (∀ insts : List EmitProg,
      blockPass2Size insts = 4 * (blockPass3Words insts).length) := by
  refine ⟨pass2Size_eq_pass3_length, ?_⟩
  intro insts
  induction insts with
  | nil => simp [blockPass2Size, blockPass3Words]
  | cons p ps ih =>
      simp only [blockPass2Size, blockPass3Words, List.map_cons, List.flatten_cons,
        List.sum_cons, List.length_append] at *
      rw [pass2Size_eq_pass3_length p, ih]
      ring

/-- C8: a vfork-like request (forktype 3) is served by the ordinary host
fork primitive — never by a true vfork — and the parent trace contains the
wait on the child, while a fork-with-pty request (forktype 2) is served by
the pty-fork primitive and the parent does not wait. -/
theorem forktype3_uses_plain_fork_and_waits (sz fuel : Nat) :
    forkPrimitive 3 = ForkEvent.hostForkCall ∧
    ForkEvent.hostVforkCall ∉ x64emu_fork_parentTrace sz fuel 3 ∧
    ForkEvent.waitpidCall ∈ x64emu_fork_parentTrace sz fuel 3 ∧
    forkPrimitive 2 = ForkEvent.hostForkPtyCall ∧
    ForkEvent.waitpidCall ∉ x64emu_fork_parentTrace sz fuel 2 := by
  refine ⟨rfl, ?_, ?_, rfl, ?_⟩ <;>
    simp [x64emu_fork_parentTrace, forkPrimitive]

/-- A machine state with distinct values in host register x19 (guest R9,
value 5) and in the prolog's stack slot for x19 (host callee value 7). -/
def epilogCexMachine : EpilogMachine :=
  { hx := fun i => if i.val = 9 then 5 else 0,
    savedCallee := fun _ => 7,
    cpu := cpu0 }

/-- C9 counterexample: running the epilog twice does not leave GuestCpu as
running it once — the first run restores the host callee-saved registers
x19..x27 over the guest R9..R15/flags/RIP, so the second run spills those
host values (here 7 into the R9 slot, where one run left 5). -/
theorem epilog_twice_changes_guestcpu :
    (arm64_epilog (arm64_epilog epilogCexMachine)).cpu ≠
      (arm64_epilog epilogCexMachine).cpu := by
  intro h
  have h9 := congrArg (fun c => c.regs ⟨9, by omega⟩) h
  simp only [arm64_epilog, epilogSpill, epilogRestore, epilogCexMachine, cpu0] at h9
  norm_num [Fin.castLE] at h9

/-- C9 amended: the epilog's spill phase alone is idempotent on GuestCpu,
and a double run of the full epilog leaves unchanged exactly the GuestCpu
slots whose host registers are not restored by the epilog (x10..x18, guest
RAX..R8); the slots for R9..R15, flags and RIP (indices 9..17) come out
holding the prolog-saved host callee values instead. -/
theorem epilog_spill_idempotent_and_low_regs_stable :
    (∀ (hx : Fin 18 → Nat) (g : GuestCpu),
      epilogSpill hx (epilogSpill hx g) = epilogSpill hx g) ∧
    (∀ (m : EpilogMachine) (i : Fin 9),
      (arm64_epilog (arm64_epilog m)).cpu.regs (Fin.castLE (by omega) i) =
        (arm64_epilog m).cpu.regs (Fin.castLE (by omega) i)) ∧
    (∀ (m : EpilogMachine) (i : Fin 7),
      (arm64_epilog (arm64_epilog m)).cpu.regs ⟨9 + i.val, by omega⟩ =
        m.savedCallee ⟨i.val, by omega⟩) ∧
    (∀ m : EpilogMachine,
      (arm64_epilog (arm64_epilog m)).cpu.eflags = m.savedCallee ⟨7, by omega⟩) ∧
    (∀ m : EpilogMachine,
      (arm64_epilog (arm64_epilog m)).cpu.ip = m.savedCallee ⟨8, by omega⟩) := by
  refine ⟨fun hx g => rfl, ?_, ?_, ?_, ?_⟩
  · intro m i
    have hi : (i : Nat) < 9 := i.isLt
    simp only [arm64_epilog, epilogSpill, epilogRestore]
    rw [dif_neg]
    simp only [Fin.castLE]
    omega
  · intro m i
    simp only [arm64_epilog, epilogSpill, epilogRestore]
    rw [dif_pos (by simp [Fin.castLE])]
    congr 1
    apply Fin.ext
    simp [Fin.castLE]
  · intro m
    simp only [arm64_epilog, epilogSpill, epilogRestore]
    rw [dif_pos (by decide)]
    congr 1
  · intro m
    simp only [arm64_epilog, epilogSpill, epilogRestore]
    rw [dif_pos (by decide)]
    congr 1

/-- C10: in the child of a fork taken while `stale > 0` parent threads were
inside a translated block, every reachable child-side state keeps the
block's `in_used` equal to `stale` plus the child threads currently inside
(so it stays at least `stale`, positive forever), and the purge scan never
frees the block: the post-fork child reinitialization does not reset the
counter and no child thread can decrement the stale part. -/
theorem stale_inuse_never_purged (stale : Nat) (s : BlockChildState)
    (hstale : 0 < stale) (hr : ChildReach (childInit stale) s) :
    s.inUse = stale + s.threadsInside ∧ stale ≤ s.inUse ∧ s.freed = false := by
  induction hr with
  | refl => simp [childInit]
  | step hs ht ih =>
      obtain ⟨h1, h2, h3⟩ := ih
      cases ht with
      | atforkChildReinit => exact ⟨h1, h2, h3⟩
      | enter =>
          refine ⟨by simp; omega, by simp; omega, by simp [h3]⟩
      | exitBlock h =>
          refine ⟨by simp; omega, by simp; omega, by simp [h3]⟩
      | purge h =>
          exfalso
          omega

/-- Witness for C10 at `stale = 8` and the initial child state. -/
theorem stale_inuse_never_purged_witness :
    0 < 8 ∧
    (childInit 8).inUse = 8 + (childInit 8).threadsInside ∧
    8 ≤ (childInit 8).inUse ∧
    (childInit 8).freed = false :=
  ⟨by decide,
   stale_inuse_never_purged 8 (childInit 8) (by decide) ChildReach.refl⟩

end Box64
